import Mathlib

set_option maxRecDepth 100000

/-!
Verification of the XRD analysis core (repository xrd_figure).

This file gives a shallow embedding, in Lean 4, of the algorithmic core of
the repository: the series cleaner and the two peak-matching policies of
src/data_processor.py and src/xrd_analyzer_enhanced.py, and the adaptive
threshold computation of the peak detector.  Measured values (angles,
intensities) are modelled as rationals where the Python code manipulates
floats through exact comparisons and arithmetic, and as reals for the
detector statistics, whose standard deviation involves a square root.
Theorems at the end of the file settle the specified properties.
-/

namespace XRD

/-- A cleaned data row: (angle, intensity), the two columns of the
pandas frame of data_processor.py. -/
abbrev Row : Type := ℚ × ℚ

/-- A raw input row, either column possibly missing (NaN in pandas). -/
abbrev RawRow : Type := Option ℚ × Option ℚ

/-- The recognized configuration options of clean_experimental_data,
with the dictionary defaults of the source inlined
(angle_min 0, angle_max 180, intensity_threshold 0, smooth_window 1). -/
structure Config where
  angleMin : ℚ
  angleMax : ℚ
  intensityThreshold : ℚ
  smoothWindow : ℤ
deriving DecidableEq

/-- The single error raised by clean_experimental_data
(ValueError, fewer than 100 valid points). -/
inductive CleanError where
  | dataInsufficient
deriving DecidableEq

/-- dropna: keep the rows where both columns are present. -/
def dropna (raw : List RawRow) : List Row :=
  raw.filterMap (fun r =>
    match r with
    | (some a, some i) => some (a, i)
    | _ => none)

/-- The basic validation predicate of clean_experimental_data:
angle strictly between 0 and 180, intensity nonnegative. -/
def basicOk (r : Row) : Prop := 0 < r.1 ∧ r.1 < 180 ∧ 0 ≤ r.2

instance : DecidablePred basicOk := fun r =>
  inferInstanceAs (Decidable (0 < r.1 ∧ r.1 < 180 ∧ 0 ≤ r.2))

/-- Comparison of rows by angle, the sort key of sort_values of the source. -/
def rowLe (a b : Row) : Prop := a.1 ≤ b.1

instance : DecidableRel rowLe := fun a b => inferInstanceAs (Decidable (a.1 ≤ b.1))

instance : IsTotal Row rowLe := ⟨fun a b => le_total a.1 b.1⟩

instance : IsTrans Row rowLe := ⟨fun _ _ _ h1 h2 => le_trans h1 h2⟩

/-- Auxiliary loop for dropDuplicates: drop the rows already seen,
keeping the first occurrence of each row. -/
def dropDupAux (seen : List Row) : List Row → List Row
  | [] => []
  | r :: rs => if r ∈ seen then dropDupAux seen rs else r :: dropDupAux (r :: seen) rs

/-- drop_duplicates of pandas: remove the later duplicates of every full
row, keeping the first occurrence, order otherwise preserved.  Note that
it deduplicates whole rows, not angles. -/
def dropDuplicates (l : List Row) : List Row := dropDupAux [] l

/-- The smoothing step of clean_experimental_data.  The source applies a
Savitzky–Golay filter (external scipy code) to the intensity column when
the configured window exceeds 1 and the data is longer than the window,
forcing the window odd first; a failure of the filter is caught and the
unsmoothed data kept.  The filter itself is kept abstract as the
parameter sg; the length guard mirrors the try/except of the source
(a filter output that cannot be assigned back to the column leaves the
data unchanged). -/
def applySmooth (sg : ℕ → List ℚ → List ℚ) (w : ℤ) (d : List Row) : List Row :=
  if 1 < w ∧ w < (d.length : ℤ) then
    let w2 := if w % 2 = 0 then w + 1 else w
    if w2 < (d.length : ℤ) then
      let sm := sg w2.toNat (d.map Prod.snd)
      if sm.length = d.length then (d.map Prod.fst).zip sm else d
    else d
  else d

/-- clean_experimental_data of src/data_processor.py: drop missing
values, keep rows with angle in (0,180) and intensity at least 0, fail
when fewer than 100 rows remain, then apply the optional config-driven
angle-range and intensity-threshold filters and smoothing, and finally
sort by angle and drop duplicate rows. -/
def clean_experimental_data (raw : List RawRow) (config : Option Config)
    (sg : ℕ → List ℚ → List ℚ) : Except CleanError (List Row) :=
  let d1 := (dropna raw).filter (fun r => decide (basicOk r))
  if d1.length < 100 then .error .dataInsufficient
  else
    let d2 := match config with
      | none => d1
      | some c =>
        let da := d1.filter (fun r => decide (c.angleMin ≤ r.1 ∧ r.1 ≤ c.angleMax))
        let db := da.filter (fun r => decide (c.intensityThreshold ≤ r.2))
        applySmooth sg c.smoothWindow db
    .ok (dropDuplicates (List.insertionSort rowLe d2))

end XRD

deriving instance DecidableEq for Except

namespace XRD

/-- A trivial smoother used for concrete evaluations (the smoothing
branch is not taken in any of them). -/
def sgId : ℕ → List ℚ → List ℚ := fun _ l => l

/-- Number of rows surviving the dropna and basic validation steps; the
length test of the source is taken against exactly this count. -/
def basicCount (raw : List RawRow) : ℕ :=
  ((dropna raw).filter (fun r => decide (basicOk r))).length

/-- Concrete input: 100 valid rows among which one exact duplicate row,
so that the cleaned output has 99 rows. -/
def exC7 : List RawRow :=
  (some 1, some 1) :: (some 1, some 1) ::
    ((List.range 98).map (fun k => (some ((k : ℚ) + 2), some (1 : ℚ))))

/-- The 99-row cleaned output of exC7. -/
def outC7 : List Row :=
  ((1 : ℚ), (1 : ℚ)) :: ((List.range 98).map (fun k => (((k : ℚ) + 2), (1 : ℚ))))

/-- Concrete input: 100 valid rows with two rows sharing the angle 1 but
with different intensities. -/
def exC8 : List RawRow :=
  (some 1, some 1) :: (some 1, some 2) ::
    ((List.range 98).map (fun k => (some ((k : ℚ) + 2), some (1 : ℚ))))

/-- The cleaned output of exC8, with the angle 1 appearing twice. -/
def outC8 : List Row :=
  ((1 : ℚ), (1 : ℚ)) :: ((1 : ℚ), (2 : ℚ)) ::
    ((List.range 98).map (fun k => (((k : ℚ) + 2), (1 : ℚ))))

/-- Concrete input: 100 valid rows with intensities 1..100. -/
def exC9 : List RawRow :=
  (List.range 100).map (fun k => (some ((k : ℚ) + 1), some ((k : ℚ) + 1)))

/-- A configuration with an intensity threshold of 2 and no smoothing. -/
def cfgC9 : Config := ⟨0, 180, 2, 1⟩

/-- The cleaned output of exC9 under cfgC9: 99 rows. -/
def outC9 : List Row :=
  (List.range 99).map (fun k => (((k : ℚ) + 2), ((k : ℚ) + 2)))

/-- Concrete input: 100 valid rows of intensity 2. -/
def exW8 : List RawRow :=
  (List.range 100).map (fun k => (some ((k : ℚ) + 1), some (2 : ℚ)))

/-- The cleaned output of exW8: the same 100 rows. -/
def outW8 : List Row :=
  (List.range 100).map (fun k => (((k : ℚ) + 1), (2 : ℚ)))

/-- Concrete input: 100 valid rows of intensity 1. -/
def exW9 : List RawRow :=
  (List.range 100).map (fun k => (some ((k : ℚ) + 1), some (1 : ℚ)))

/-- The cleaned output of exW9: the same 100 rows. -/
def outW9 : List Row :=
  (List.range 100).map (fun k => (((k : ℚ) + 1), (1 : ℚ)))

/-- A reference catalog entry (one row of master_pdf_df): theoretical
angle, relative intensity, phase name and display symbol. -/
structure CatEntry where
  twoTheta : ℚ
  intensity : ℚ
  phase : String
  symbol : String
deriving DecidableEq

/-- A successful match record of match_peaks: the chosen catalog row
together with its delta, match_quality and the experimental intensity. -/
structure MatchRec where
  twoTheta : ℚ
  intensity : ℚ
  phase : String
  symbol : String
  delta : ℚ
  match_quality : ℚ
  exp_intensity : ℚ
deriving DecidableEq

/-- The row selected by sort_values by (delta ascending, intensity
descending) followed by iloc[0]: the lexicographically least candidate
under that key, the earliest catalog row on full ties (the pandas
multi-key sort is stable). -/
def bestCand (a : ℚ) : List CatEntry → Option CatEntry
  | [] => none
  | c :: cs =>
    match bestCand a cs with
    | none => some c
    | some b =>
      if |b.twoTheta - a| < |c.twoTheta - a| ∨
          (|b.twoTheta - a| = |c.twoTheta - a| ∧ c.intensity < b.intensity) then
        some b
      else some c

/-- The per-detected-peak body of match_peaks: filter the catalog to the
rows within tolerance of the experimental angle, pick the best row by
(delta, intensity), and record delta, quality and experimental
intensity; None when no row is within tolerance. -/
def matchOne (cat : List CatEntry) (tolerance : ℚ) (ep : Row) : Option MatchRec :=
  match bestCand ep.1 (cat.filter (fun c => decide (|c.twoTheta - ep.1| ≤ tolerance))) with
  | none => none
  | some c =>
    some ⟨c.twoTheta, c.intensity, c.phase, c.symbol, |c.twoTheta - ep.1|,
      1 - |c.twoTheta - ep.1| / tolerance, ep.2⟩

/-- match_peaks of src/data_processor.py (the peak-first policy): one
output entry per detected peak, in order; None records an unmatched
peak.  The function performs no validation of the tolerance. -/
def match_peaks (found : List Row) (cat : List CatEntry) (tolerance : ℚ) :
    List (Option MatchRec) :=
  found.map (matchOne cat tolerance)

/-- A detected peak as assembled in match_peaks_to_references of
src/xrd_analyzer_enhanced.py: experimental angle, intensity, and the
index of the peak in the original arrays. -/
structure DetPeak where
  angle : ℚ
  intensity : ℚ
  idx : ℕ
deriving DecidableEq

/-- A phase-first match dictionary: experimental angle, reference angle,
experimental intensity, angular difference, and the index of the
detected peak. -/
structure PFMatch where
  exp_angle : ℚ
  ref_angle : ℚ
  intensity : ℚ
  diff : ℚ
  peak_idx : ℕ
deriving DecidableEq

/-- One entry of the reference_data dictionary: a phase name, its list
of theoretical angles, and its display symbol (Python dictionaries
iterate in insertion order, hence a list). -/
structure RefPhase where
  name : String
  twoTheta : List ℚ
  symbol : String

/-- The per-phase entry of the matches dictionary returned by
match_peaks_to_references. -/
structure PhaseMatches where
  name : String
  symbol : String
  matchList : List PFMatch
  count : ℕ

/-- peak_info construction: pair each angle with its intensity and its
original index. -/
def mkPeakInfo (angles intensities : List ℚ) : List DetPeak :=
  ((angles.zip intensities).enum).map (fun p => ⟨p.2.1, p.2.2, p.1⟩)

/-- The ordering of the peak_info sort: intensity descending, original
index ascending on ties.  Since Python list.sort is stable and the
indices of mkPeakInfo are increasing, this total order reproduces the
sorted peak_info exactly. -/
def peakGe (a b : DetPeak) : Prop :=
  b.intensity < a.intensity ∨ (a.intensity = b.intensity ∧ a.idx ≤ b.idx)

instance : DecidableRel peakGe := fun a b =>
  inferInstanceAs (Decidable (b.intensity < a.intensity ∨
    (a.intensity = b.intensity ∧ a.idx ≤ b.idx)))

instance : IsTotal DetPeak peakGe := by
  constructor
  intro a b
  rcases lt_trichotomy a.intensity b.intensity with h | h | h
  · exact Or.inr (Or.inl h)
  · rcases Nat.le_total a.idx b.idx with h2 | h2
    · exact Or.inl (Or.inr ⟨h, h2⟩)
    · exact Or.inr (Or.inr ⟨h.symm, h2⟩)
  · exact Or.inl (Or.inl h)

instance : IsTrans DetPeak peakGe := by
  constructor
  rintro a b c (h1 | ⟨h1, h1i⟩) (h2 | ⟨h2, h2i⟩)
  · exact Or.inl (lt_trans h2 h1)
  · exact Or.inl (h2 ▸ h1)
  · exact Or.inl (h1 ▸ h2)
  · exact Or.inr ⟨h1.trans h2, h1i.trans h2i⟩

/-- The body of the scan over peak_info for a single reference angle:
skip used peaks, and take a peak within tolerance whose intensity
strictly exceeds the best intensity so far (initially 0). -/
def scanStep (tolerance ref : ℚ) (used : List ℕ)
    (acc : Option PFMatch × ℚ) (p : DetPeak) : Option PFMatch × ℚ :=
  if p.idx ∈ used then acc
  else if |p.angle - ref| ≤ tolerance ∧ acc.2 < p.intensity then
    (some ⟨p.angle, ref, p.intensity, |p.angle - ref|, p.idx⟩, p.intensity)
  else acc

/-- The full scan for one reference angle: best_match starts at None and
best_intensity at 0. -/
def scanPeaks (tolerance ref : ℚ) (used : List ℕ) (peaks : List DetPeak) :
    Option PFMatch :=
  (peaks.foldl (scanStep tolerance ref used) (none, 0)).1

/-- Processing of one reference angle: when the scan found a match,
append it to the matches of the phase and mark its peak index used. -/
def refStep (tolerance : ℚ) (peaks : List DetPeak)
    (st : List PFMatch × List ℕ) (ref : ℚ) : List PFMatch × List ℕ :=
  match scanPeaks tolerance ref st.2 peaks with
  | some m => (st.1 ++ [m], st.2 ++ [m.peak_idx])
  | none => st

/-- Processing of all reference angles of one phase, threading the used
set. -/
def matchPhase (tolerance : ℚ) (peaks : List DetPeak) (used : List ℕ)
    (refAngles : List ℚ) : List PFMatch × List ℕ :=
  refAngles.foldl (refStep tolerance peaks) ([], used)

/-- Processing of one phase of the outer loop: record the phase in the
output only when it collected at least one match. -/
def phaseStep (tolerance : ℚ) (peaks : List DetPeak)
    (st : List PhaseMatches × List ℕ) (ph : RefPhase) :
    List PhaseMatches × List ℕ :=
  let r := matchPhase tolerance peaks st.2 ph.twoTheta
  if r.1 = [] then (st.1, r.2)
  else (st.1 ++ [⟨ph.name, ph.symbol, r.1, r.1.length⟩], r.2)

/-- match_peaks_to_references of src/xrd_analyzer_enhanced.py (the
phase-first policy; src/xrd_plotter.py holds an identical copy): sort
the peaks by intensity descending, then for each phase and each of its
reference angles select the unused in-tolerance peak of highest
intensity (provided it exceeds the initial best intensity 0) and mark it
used.  No validation of the tolerance is performed. -/
def match_peaks_to_references (peak_angles peak_intensities : List ℚ)
    (reference_data : List RefPhase) (tolerance : ℚ) : List PhaseMatches :=
  let peaks := List.insertionSort peakGe (mkPeakInfo peak_angles peak_intensities)
  (reference_data.foldl (phaseStep tolerance peaks) ([], [])).1

/-- The peak indices of all matches of a result, across all phases, in
order. -/
def allIdxs (out : List PhaseMatches) : List ℕ :=
  (out.map (fun pm => pm.matchList.map PFMatch.peak_idx)).flatten

end XRD

section DetectorDefs

open scoped Classical

namespace XRD

/-- The nominal find_peaks parameters drawn from the configuration in
detect_peaks (defaults height 100, distance 15, prominence 50,
width 2). -/
structure PeakParams where
  height : ℝ
  distance : ℤ
  prominence : ℝ
  width : ℝ

/-- Arithmetic mean of a list, np.mean (0/0 for the empty list, on
which np.mean is never meaningfully used here). -/
noncomputable def listMean (l : List ℝ) : ℝ := l.sum / l.length

/-- Population standard deviation of a list, np.std. -/
noncomputable def listStd (l : List ℝ) : ℝ :=
  Real.sqrt (listMean (l.map (fun x => (x - listMean l) ^ 2)))

/-- Maximum of a list, np.max (0 for the empty list, on which np.max
raises and is never used here). -/
noncomputable def listMax : List ℝ → ℝ
  | [] => 0
  | [x] => x
  | x :: y :: t => max x (listMax (y :: t))

/-- The adaptive parameter adjustment of detect_peaks of
src/data_processor.py: when the maximum intensity is strictly positive,
clamp the nominal height by max(mean + 2 std, 0.05 max) and the nominal
prominence by max(std, 0.02 max); otherwise keep the nominal parameters
unchanged.  The subsequent peak search itself is the external
scipy.signal.find_peaks call and is outside the claims settled here. -/
noncomputable def detect_peaks_params (cfg : PeakParams) (intensity : List ℝ) :
    PeakParams :=
  let m := listMean intensity
  let s := listStd intensity
  let M := listMax intensity
  if 0 < M then
    ⟨min cfg.height (max (m + 2 * s) (M * (5 / 100))), cfg.distance,
      min cfg.prominence (max s (M * (2 / 100))), cfg.width⟩
  else cfg

end XRD

end DetectorDefs

namespace XRD

/-- A configuration that requests no smoothing: either absent, or with a
smoothing window of at most 1 (the branch of the source that smooths is
then not taken). -/
def noSmoothing (config : Option Config) : Prop :=
  ∀ c, config = some c → c.smoothWindow ≤ 1

/-! ### Lemmas about dropDuplicates -/

theorem dropDupAux_sublist (l : List Row) :
    ∀ seen : List Row, (dropDupAux seen l).Sublist l := by
  induction l with
  | nil => intro seen; simp [dropDupAux]
  | cons r rs ih =>
    intro seen
    by_cases h : r ∈ seen
    · simp only [dropDupAux, if_pos h]
      exact (ih seen).trans (List.sublist_cons_self r rs)
    · simp only [dropDupAux, if_neg h]
      exact (ih (r :: seen)).cons₂ r

theorem mem_dropDupAux (x : Row) (l : List Row) :
    ∀ seen : List Row, x ∈ dropDupAux seen l ↔ x ∈ l ∧ x ∉ seen := by
  induction l with
  | nil => intro seen; simp [dropDupAux]
  | cons r rs ih =>
    intro seen
    by_cases h : r ∈ seen
    · simp only [dropDupAux, if_pos h, ih, List.mem_cons]
      constructor
      · rintro ⟨hx, hs⟩; exact ⟨Or.inr hx, hs⟩
      · rintro ⟨hx | hx, hs⟩
        · exact absurd (hx ▸ h) hs
        · exact ⟨hx, hs⟩
    · simp only [dropDupAux, if_neg h, List.mem_cons, ih, List.mem_cons]
      constructor
      · rintro (rfl | ⟨hx, hs⟩)
        · exact ⟨Or.inl rfl, h⟩
        · exact ⟨Or.inr hx, fun hc => hs (Or.inr hc)⟩
      · rintro ⟨rfl | hx, hs⟩
        · exact Or.inl rfl
        · by_cases hxr : x = r
          · exact Or.inl hxr
          · exact Or.inr ⟨hx, fun hc => (hc.elim hxr hs)⟩

theorem dropDupAux_nodup (l : List Row) :
    ∀ seen : List Row, (dropDupAux seen l).Nodup := by
  induction l with
  | nil => intro seen; simp [dropDupAux]
  | cons r rs ih =>
    intro seen
    by_cases h : r ∈ seen
    · simpa only [dropDupAux, if_pos h] using ih seen
    · simp only [dropDupAux, if_neg h, List.nodup_cons]
      refine ⟨fun hc => ?_, ih (r :: seen)⟩
      exact ((mem_dropDupAux r rs (r :: seen)).1 hc).2 (List.mem_cons_self r seen)

theorem dropDupAux_eq_self (l : List Row) :
    ∀ seen : List Row, l.Nodup → (∀ x ∈ l, x ∉ seen) → dropDupAux seen l = l := by
  induction l with
  | nil => intro seen _ _; simp [dropDupAux]
  | cons r rs ih =>
    intro seen hnd hs
    have hr : r ∉ seen := hs r (List.mem_cons_self r rs)
    simp only [dropDupAux, if_neg hr]
    congr 1
    refine ih (r :: seen) hnd.of_cons ?_
    intro x hx hc
    rcases List.mem_cons.1 hc with hc2 | hc2
    · exact (List.nodup_cons.1 hnd).1 (hc2 ▸ hx)
    · exact hs x (List.mem_cons_of_mem r hx) hc2

theorem dropDuplicates_sublist (l : List Row) : (dropDuplicates l).Sublist l :=
  dropDupAux_sublist l []

theorem mem_dropDuplicates (x : Row) (l : List Row) :
    x ∈ dropDuplicates l ↔ x ∈ l := by
  simp [dropDuplicates, mem_dropDupAux]

theorem dropDuplicates_nodup (l : List Row) : (dropDuplicates l).Nodup :=
  dropDupAux_nodup l []

theorem dropDuplicates_eq_self (l : List Row) (h : l.Nodup) :
    dropDuplicates l = l :=
  dropDupAux_eq_self l [] h (by simp)

/-! ### Lemmas about the cleaning pipeline -/

theorem applySmooth_map_fst (sg : ℕ → List ℚ → List ℚ) (w : ℤ) (d : List Row) :
    (applySmooth sg w d).map Prod.fst = d.map Prod.fst := by
  unfold applySmooth
  by_cases h1 : 1 < w ∧ w < (d.length : ℤ)
  · simp only [if_pos h1]
    set w2 := if w % 2 = 0 then w + 1 else w with hw2
    by_cases h2 : w2 < (d.length : ℤ)
    · simp only [if_pos h2]
      by_cases h3 : (sg w2.toNat (d.map Prod.snd)).length = d.length
      · simp only [if_pos h3]
        rw [List.map_fst_zip]
        rw [h3, List.length_map]
      · simp only [if_neg h3]
    · simp only [if_neg h2]
  · simp only [if_neg h1]

theorem applySmooth_of_le_one (sg : ℕ → List ℚ → List ℚ) (w : ℤ) (hw : w ≤ 1)
    (d : List Row) : applySmooth sg w d = d := by
  unfold applySmooth
  rw [if_neg]
  rintro ⟨h1, _⟩
  exact absurd hw (not_le.2 h1)

theorem sortDedup_sorted (d : List Row) :
    List.Sorted rowLe (dropDuplicates (List.insertionSort rowLe d)) :=
  (List.sorted_insertionSort rowLe d).sublist (dropDuplicates_sublist _)

theorem sortDedup_nodup (d : List Row) :
    (dropDuplicates (List.insertionSort rowLe d)).Nodup :=
  dropDuplicates_nodup _

theorem mem_sortDedup (r : Row) (d : List Row) :
    r ∈ dropDuplicates (List.insertionSort rowLe d) ↔ r ∈ d := by
  rw [mem_dropDuplicates, List.mem_insertionSort]

theorem mem_filter_decide {p : Row → Prop} [DecidablePred p] (r : Row)
    (l : List Row) : r ∈ l.filter (fun x => decide (p x)) ↔ r ∈ l ∧ p r := by
  simp [List.mem_filter]

/-- Shape of a successful cleaning run without a configuration: the
output is the sorted, deduplicated basic-valid rows, whose count was at
least 100. -/
theorem clean_ok_shape_none (raw : List RawRow)
    (sg : ℕ → List ℚ → List ℚ) (out : List Row)
    (h : clean_experimental_data raw none sg = .ok out) :
    100 ≤ basicCount raw ∧
      out = dropDuplicates (List.insertionSort rowLe
        ((dropna raw).filter (fun r => decide (basicOk r)))) := by
  unfold clean_experimental_data at h
  by_cases hlen : ((dropna raw).filter (fun r => decide (basicOk r))).length < 100
  · rw [if_pos hlen] at h
    exact absurd h (by simp)
  · rw [if_neg hlen] at h
    exact ⟨le_of_not_lt hlen, by simpa using h.symm⟩

/-- Shape of a successful cleaning run with a configuration: the output
is the sorted, deduplicated form of the config-filtered (and possibly
smoothed) basic-valid rows, whose count was at least 100. -/
theorem clean_ok_shape_some (raw : List RawRow) (c : Config)
    (sg : ℕ → List ℚ → List ℚ) (out : List Row)
    (h : clean_experimental_data raw (some c) sg = .ok out) :
    100 ≤ basicCount raw ∧
      out = dropDuplicates (List.insertionSort rowLe
        (applySmooth sg c.smoothWindow
          ((((dropna raw).filter (fun r => decide (basicOk r))).filter
              (fun r => decide (c.angleMin ≤ r.1 ∧ r.1 ≤ c.angleMax))).filter
            (fun r => decide (c.intensityThreshold ≤ r.2))))) := by
  unfold clean_experimental_data at h
  by_cases hlen : ((dropna raw).filter (fun r => decide (basicOk r))).length < 100
  · rw [if_pos hlen] at h
    exact absurd h (by simp)
  · rw [if_neg hlen] at h
    exact ⟨le_of_not_lt hlen, by simpa using h.symm⟩

/-- Invariants of every successful cleaning run: output sorted by angle,
no duplicate rows, angles in the open interval (0,180); and, whenever
the run performs no smoothing, nonnegative intensities and conformance
to the config filters. -/
theorem clean_ok_inv (raw : List RawRow) (config : Option Config)
    (sg : ℕ → List ℚ → List ℚ) (out : List Row)
    (h : clean_experimental_data raw config sg = .ok out) :
    List.Sorted rowLe out ∧ out.Nodup ∧
      (∀ r ∈ out, 0 < r.1 ∧ r.1 < 180) ∧
      (noSmoothing config →
        (∀ r ∈ out, basicOk r) ∧
        (∀ c, config = some c → ∀ r ∈ out,
          (c.angleMin ≤ r.1 ∧ r.1 ≤ c.angleMax) ∧ c.intensityThreshold ≤ r.2)) := by
  cases config with
  | none =>
    obtain ⟨-, hout⟩ := clean_ok_shape_none raw sg out h
    subst hout
    refine ⟨sortDedup_sorted _, sortDedup_nodup _, ?_, ?_⟩
    · intro r hr
      have := ((mem_filter_decide r _).1 ((mem_sortDedup r _).1 hr)).2
      exact ⟨this.1, this.2.1⟩
    · intro _
      refine ⟨?_, ?_⟩
      · intro r hr
        exact ((mem_filter_decide r _).1 ((mem_sortDedup r _).1 hr)).2
      · intro c hc
        exact absurd hc (by simp)
  | some c =>
    obtain ⟨-, hout⟩ := clean_ok_shape_some raw c sg out h
    subst hout
    refine ⟨sortDedup_sorted _, sortDedup_nodup _, ?_, ?_⟩
    · intro r hr
      have hr2 := (mem_sortDedup r _).1 hr
      have hfst : r.1 ∈ (applySmooth sg c.smoothWindow
          ((((dropna raw).filter (fun r => decide (basicOk r))).filter
              (fun r => decide (c.angleMin ≤ r.1 ∧ r.1 ≤ c.angleMax))).filter
            (fun r => decide (c.intensityThreshold ≤ r.2)))).map Prod.fst :=
        List.mem_map_of_mem Prod.fst hr2
      rw [applySmooth_map_fst] at hfst
      obtain ⟨r2, hr2mem, hr2eq⟩ := List.mem_map.1 hfst
      have hb := ((mem_filter_decide r2 _).1
        ((mem_filter_decide r2 _).1 ((mem_filter_decide r2 _).1 hr2mem).1).1).2
      rw [← hr2eq]
      exact ⟨hb.1, hb.2.1⟩
    · intro hns
      have hw : c.smoothWindow ≤ 1 := hns c rfl
      rw [applySmooth_of_le_one sg c.smoothWindow hw] at *
      refine ⟨?_, ?_⟩
      · intro r hr
        have hr2 := (mem_sortDedup r _).1 hr
        exact ((mem_filter_decide r _).1
          ((mem_filter_decide r _).1 ((mem_filter_decide r _).1 hr2).1).1).2
      · rintro c2 hc2 r hr
        obtain rfl : c2 = c := by injection hc2 with h2; exact h2.symm
        have hr2 := (mem_sortDedup r _).1 hr
        have h3 := (mem_filter_decide r _).1 hr2
        have h4 := (mem_filter_decide r _).1 h3.1
        exact ⟨h4.2, h3.2⟩

theorem dropna_map_some (l : List Row) :
    dropna (l.map (fun r => (some r.1, some r.2))) = l := by
  induction l with
  | nil => rfl
  | cons r rs ih =>
    simp only [List.map_cons, dropna, List.filterMap_cons] at *
    rw [ih]

/-- Running the cleaner on its own output with the same configuration is
the identity whenever the configuration requests no smoothing and the
output still has at least 100 rows. -/
theorem clean_rerun_id (raw : List RawRow) (config : Option Config)
    (sg : ℕ → List ℚ → List ℚ) (out : List Row)
    (h : clean_experimental_data raw config sg = .ok out)
    (hns : noSmoothing config) (hlen : 100 ≤ out.length) :
    clean_experimental_data (out.map (fun r => (some r.1, some r.2))) config sg
      = .ok out := by
  obtain ⟨hsort, hnd, -, hprops⟩ := clean_ok_inv raw config sg out h
  obtain ⟨hbasic, hcfg⟩ := hprops hns
  have hfilter1 : (out.filter (fun r => decide (basicOk r))) = out :=
    List.filter_eq_self.mpr (fun r hr => decide_eq_true (hbasic r hr))
  have hsortid : List.insertionSort rowLe out = out := hsort.insertionSort_eq
  have hddid : dropDuplicates out = out := dropDuplicates_eq_self out hnd
  cases config with
  | none =>
    simp only [clean_experimental_data, dropna_map_some, hfilter1,
      if_neg (not_lt.mpr hlen), hsortid, hddid]
  | some c =>
    have hw : c.smoothWindow ≤ 1 := hns c rfl
    have hf2 : out.filter (fun r => decide (c.angleMin ≤ r.1 ∧ r.1 ≤ c.angleMax))
        = out :=
      List.filter_eq_self.mpr (fun r hr => decide_eq_true ((hcfg c rfl r hr).1))
    have hf3 : out.filter (fun r => decide (c.intensityThreshold ≤ r.2)) = out :=
      List.filter_eq_self.mpr (fun r hr => decide_eq_true ((hcfg c rfl r hr).2))
    simp only [clean_experimental_data, dropna_map_some, hfilter1,
      if_neg (not_lt.mpr hlen), hf2, hf3,
      applySmooth_of_le_one sg c.smoothWindow hw, hsortid, hddid]

/-- C7 (amended): the cleaner raises its insufficient-data error exactly
when fewer than 100 rows survive the missing-value drop and the basic
angle/intensity validation; the later config filters and the final
deduplication play no part in the test and can shrink the output below
100 without an error. -/
theorem clean_error_iff (raw : List RawRow) (config : Option Config)
    (sg : ℕ → List ℚ → List ℚ) :
    clean_experimental_data raw config sg = .error .dataInsufficient ↔
      basicCount raw < 100 := by
  unfold clean_experimental_data basicCount
  by_cases h : ((dropna raw).filter (fun r => decide (basicOk r))).length < 100
  · simp [h]
  · simp [h]

/-- C7 counterexample: an input whose cleaned output has only 99 rows
(one duplicate row is removed at the final deduplication) succeeds,
although the claim requires an input yielding 99 cleaned rows to raise
the insufficient-data error. -/
theorem clean_succeeds_with_99_rows :
    clean_experimental_data exC7 none sgId = .ok outC7 ∧ outC7.length = 99 := by
  constructor
  · with_unfolding_all rfl
  · with_unfolding_all rfl

/-- C8 (amended): the angles of a cleaned output are non-decreasing (two
rows may share an angle when their intensities differ, since only whole
duplicate rows are removed) and lie in the open interval (0,180); the
intensities are nonnegative whenever the run performs no smoothing. -/
theorem clean_output_sorted_inrange (raw : List RawRow) (config : Option Config)
    (sg : ℕ → List ℚ → List ℚ) (out : List Row)
    (h : clean_experimental_data raw config sg = .ok out) :
    List.Sorted rowLe out ∧ (∀ r ∈ out, 0 < r.1 ∧ r.1 < 180) ∧
      (noSmoothing config → ∀ r ∈ out, 0 ≤ r.2) := by
  obtain ⟨hsort, -, hrange, hprops⟩ := clean_ok_inv raw config sg out h
  exact ⟨hsort, hrange, fun hns r hr => ((hprops hns).1 r hr).2.2⟩

/-- C8 witness: a concrete successful run with the invariants
instantiated. -/
theorem clean_output_sorted_inrange_witness :
    clean_experimental_data exW8 none sgId = .ok outW8 ∧
      (List.Sorted rowLe outW8 ∧ (∀ r ∈ outW8, 0 < r.1 ∧ r.1 < 180) ∧
        (noSmoothing none → ∀ r ∈ outW8, 0 ≤ r.2)) :=
  ⟨by with_unfolding_all rfl,
    clean_output_sorted_inrange exW8 none sgId outW8 (by with_unfolding_all rfl)⟩

/-- C8 counterexample: a successful cleaning run whose output carries
the angle 1 twice (intensities 1 and 2), so the output angles are not
strictly increasing as claimed. -/
theorem clean_output_duplicate_angle :
    clean_experimental_data exC8 none sgId = .ok outC8 ∧
      ¬ List.Chain' (fun a b : Row => a.1 < b.1) outC8 := by
  constructor
  · with_unfolding_all rfl
  · intro hc
    have h1 : ((1 : ℚ), (1 : ℚ)).1 < ((1 : ℚ), (2 : ℚ)).1 :=
      (List.chain'_cons.1 hc).1
    exact lt_irrefl 1 h1

/-- C9 (amended): re-running the cleaner on its own output with the same
configuration returns that output unchanged, provided the configuration
requests no smoothing and the output kept at least 100 rows; without the
length proviso the second run can fail outright, because the 100-row
test is taken before the config filters and the deduplication. -/
theorem clean_rerun_identity (raw : List RawRow) (config : Option Config)
    (sg : ℕ → List ℚ → List ℚ) (out : List Row)
    (h : clean_experimental_data raw config sg = .ok out)
    (hns : noSmoothing config) (hlen : 100 ≤ out.length) :
    clean_experimental_data (out.map (fun r => (some r.1, some r.2))) config sg
      = .ok out :=
  clean_rerun_id raw config sg out h hns hlen

/-- C9 witness: a concrete run re-cleaned to the same output. -/
theorem clean_rerun_identity_witness :
    clean_experimental_data exW9 none sgId = .ok outW9 ∧ 100 ≤ outW9.length ∧
      clean_experimental_data (outW9.map (fun r => (some r.1, some r.2))) none sgId
        = .ok outW9 :=
  ⟨by with_unfolding_all rfl, by with_unfolding_all rfl,
    clean_rerun_identity exW9 none sgId outW9 (by with_unfolding_all rfl)
      (fun c hc => absurd hc (by simp)) (by with_unfolding_all rfl)⟩

/-- C9 counterexample: a run whose config-filtered output has 99 rows
succeeds, but cleaning that output again with the same configuration
raises the insufficient-data error instead of removing no rows. -/
theorem clean_not_idempotent_below_100 :
    clean_experimental_data exC9 (some cfgC9) sgId = .ok outC9 ∧
      clean_experimental_data (outC9.map (fun r => (some r.1, some r.2)))
        (some cfgC9) sgId = .error .dataInsufficient := by
  constructor
  · with_unfolding_all rfl
  · with_unfolding_all rfl

/-! ### Lemmas about the peak-first matcher -/

theorem bestCand_ne_nil (a : ℚ) (c : CatEntry) (cs : List CatEntry) :
    bestCand a (c :: cs) ≠ none := by
  simp only [bestCand]
  cases h : bestCand a cs with
  | none => simp
  | some b => dsimp only; split_ifs <;> simp

theorem bestCand_none_iff (a : ℚ) (l : List CatEntry) :
    bestCand a l = none ↔ l = [] := by
  cases l with
  | nil => simp [bestCand]
  | cons c cs => simpa using bestCand_ne_nil a c cs

theorem bestCand_mem (a : ℚ) (l : List CatEntry) (c : CatEntry)
    (h : bestCand a l = some c) : c ∈ l := by
  induction l generalizing c with
  | nil => exact absurd h (by simp [bestCand])
  | cons e es ih =>
    simp only [bestCand] at h
    cases h2 : bestCand a es with
    | none =>
      rw [h2] at h
      dsimp only at h
      exact (Option.some_inj.1 h) ▸ List.mem_cons_self e es
    | some b =>
      rw [h2] at h
      dsimp only at h
      split_ifs at h with hcond
      · have hbc := Option.some_inj.1 h
        exact List.mem_cons_of_mem e (hbc ▸ ih b h2)
      · exact (Option.some_inj.1 h) ▸ List.mem_cons_self e es

theorem bestCand_min (a : ℚ) (l : List CatEntry) (c : CatEntry)
    (h : bestCand a l = some c) :
    ∀ d ∈ l, |c.twoTheta - a| < |d.twoTheta - a| ∨
      (|c.twoTheta - a| = |d.twoTheta - a| ∧ d.intensity ≤ c.intensity) := by
  induction l generalizing c with
  | nil => intro d hd; exact absurd hd (by simp)
  | cons e es ih =>
    intro d hd
    simp only [bestCand] at h
    cases h2 : bestCand a es with
    | none =>
      rw [h2] at h
      dsimp only at h
      have hes : es = [] := (bestCand_none_iff a es).1 h2
      obtain rfl : e = c := Option.some_inj.1 h
      subst hes
      rcases List.mem_singleton.1 hd with rfl
      exact Or.inr ⟨rfl, le_refl _⟩
    | some b =>
      rw [h2] at h
      dsimp only at h
      split_ifs at h with hcond
      · obtain rfl : b = c := Option.some_inj.1 h
        rcases List.mem_cons.1 hd with rfl | hd2
        · rcases hcond with hlt | ⟨heq, hint⟩
          · exact Or.inl hlt
          · exact Or.inr ⟨heq, le_of_lt hint⟩
        · exact ih _ h2 d hd2
      · obtain rfl : e = c := Option.some_inj.1 h
        rcases List.mem_cons.1 hd with rfl | hd2
        · exact Or.inr ⟨rfl, le_refl _⟩
        · push_neg at hcond
          obtain ⟨hle, himp⟩ := hcond
          rcases ih b h2 d hd2 with hlt | ⟨heq, hint⟩
          · exact Or.inl (lt_of_le_of_lt hle hlt)
          · rcases lt_or_eq_of_le hle with h3 | h3
            · exact Or.inl (heq ▸ h3)
            · exact Or.inr ⟨h3.trans heq, hint.trans (himp h3.symm)⟩

theorem matchOne_none_iff (cat : List CatEntry) (tol : ℚ) (ep : Row) :
    matchOne cat tol ep = none ↔ ∀ c ∈ cat, ¬ (|c.twoTheta - ep.1| ≤ tol) := by
  unfold matchOne
  cases hb : bestCand ep.1 (cat.filter (fun c => decide (|c.twoTheta - ep.1| ≤ tol))) with
  | none =>
    have hnil := (bestCand_none_iff _ _).1 hb
    simp only [List.filter_eq_nil_iff, decide_eq_true_eq] at hnil
    simpa using hnil
  | some c =>
    have hc := bestCand_mem _ _ _ hb
    rw [List.mem_filter, decide_eq_true_eq] at hc
    simp only [reduceCtorEq, false_iff, not_forall]
    exact ⟨c, hc.1, fun hcon => hcon hc.2⟩

theorem matchOne_some_spec (cat : List CatEntry) (tol : ℚ) (ep : Row)
    (m : MatchRec) (h : matchOne cat tol ep = some m) :
    ∃ c ∈ cat, |c.twoTheta - ep.1| ≤ tol ∧
      m = ⟨c.twoTheta, c.intensity, c.phase, c.symbol, |c.twoTheta - ep.1|,
        1 - |c.twoTheta - ep.1| / tol, ep.2⟩ ∧
      (∀ d ∈ cat, |d.twoTheta - ep.1| ≤ tol →
        m.delta ≤ |d.twoTheta - ep.1| ∧
          (|d.twoTheta - ep.1| = m.delta → d.intensity ≤ m.intensity)) := by
  unfold matchOne at h
  cases hb : bestCand ep.1 (cat.filter (fun c => decide (|c.twoTheta - ep.1| ≤ tol))) with
  | none => rw [hb] at h; exact absurd h (by simp)
  | some c =>
    rw [hb] at h
    have hm := (Option.some_inj.1 h).symm
    have hc := bestCand_mem _ _ _ hb
    rw [List.mem_filter, decide_eq_true_eq] at hc
    refine ⟨c, hc.1, hc.2, hm, ?_⟩
    intro d hd hdtol
    have hdf : d ∈ cat.filter (fun c => decide (|c.twoTheta - ep.1| ≤ tol)) := by
      rw [List.mem_filter, decide_eq_true_eq]; exact ⟨hd, hdtol⟩
    have hmin := bestCand_min _ _ _ hb d hdf
    have hdelta : m.delta = |c.twoTheta - ep.1| := by rw [hm]
    have hint : m.intensity = c.intensity := by rw [hm]
    rcases hmin with hlt | ⟨heq, hle⟩
    · refine ⟨hdelta ▸ le_of_lt hlt, fun hcon => ?_⟩
      rw [hdelta] at hcon
      exact absurd hcon (ne_of_gt hlt)
    · exact ⟨hdelta ▸ le_of_eq heq, fun _ => hint ▸ hle⟩

/-- C4: the peak-first matcher returns one entry per detected peak, in
order; an entry is None exactly when no catalog row is within tolerance;
a Some entry copies a catalog row within tolerance that has minimal
angular delta (ties broken by higher catalog intensity) and records
quality = 1 - delta / tolerance together with the experimental
intensity. -/
theorem match_peaks_spec (found : List Row) (cat : List CatEntry) (tol : ℚ) :
    (match_peaks found cat tol).length = found.length ∧
    ∀ i (hi : i < found.length) (hi2 : i < (match_peaks found cat tol).length),
      ((match_peaks found cat tol).get ⟨i, hi2⟩ = none ↔
        ∀ c ∈ cat, ¬ (|c.twoTheta - (found.get ⟨i, hi⟩).1| ≤ tol)) ∧
      (∀ m, (match_peaks found cat tol).get ⟨i, hi2⟩ = some m →
        ∃ c ∈ cat, |c.twoTheta - (found.get ⟨i, hi⟩).1| ≤ tol ∧
          m = ⟨c.twoTheta, c.intensity, c.phase, c.symbol,
            |c.twoTheta - (found.get ⟨i, hi⟩).1|,
            1 - |c.twoTheta - (found.get ⟨i, hi⟩).1| / tol,
            (found.get ⟨i, hi⟩).2⟩ ∧
          (∀ d ∈ cat, |d.twoTheta - (found.get ⟨i, hi⟩).1| ≤ tol →
            m.delta ≤ |d.twoTheta - (found.get ⟨i, hi⟩).1| ∧
              (|d.twoTheta - (found.get ⟨i, hi⟩).1| = m.delta →
                d.intensity ≤ m.intensity))) := by
  refine ⟨by simp [match_peaks], ?_⟩
  intro i hi hi2
  have hget : (match_peaks found cat tol).get ⟨i, hi2⟩
      = matchOne cat tol (found.get ⟨i, hi⟩) := by
    simp [match_peaks]
  rw [hget]
  exact ⟨matchOne_none_iff cat tol _, fun m hm => matchOne_some_spec cat tol _ m hm⟩

/-- C4 witness: the single detected peak at 30.10 with tolerance 0.5 and
a catalog row at 30.00 is matched with delta 0.10 and quality 0.80. -/
theorem match_peaks_spec_witness :
    match_peaks [((301 : ℚ)/10, (500 : ℚ))] [⟨30, 100, "A", "s"⟩] (1/2)
        = [some ⟨30, 100, "A", "s", 1/10, 4/5, 500⟩] ∧
      (0 : ℕ) < [((301 : ℚ)/10, (500 : ℚ))].length ∧
      (((match_peaks [((301 : ℚ)/10, (500 : ℚ))] [⟨30, 100, "A", "s"⟩] (1/2)).get
          ⟨0, by decide⟩ = none) ↔
        ∀ c ∈ [(⟨30, 100, "A", "s"⟩ : CatEntry)],
          ¬ (|c.twoTheta - (([((301 : ℚ)/10, (500 : ℚ))].get ⟨0, by decide⟩).1)| ≤ 1/2)) :=
  ⟨by with_unfolding_all rfl, by decide,
    ((match_peaks_spec [((301 : ℚ)/10, (500 : ℚ))] [⟨30, 100, "A", "s"⟩] (1/2)).2
      0 (by decide) (by decide)).1⟩

/-- C5 (amended): with a positive tolerance, every match of the
peak-first matcher satisfies 0 ≤ delta ≤ tolerance, and its quality lies
in the closed interval [0,1], attaining 1 exactly when the delta is 0
(an exact angular coincidence), so the half-open interval [0,1) of the
claim fails only at quality 1. -/
theorem match_quality_bounds (found : List Row) (cat : List CatEntry)
    (tol : ℚ) (htol : 0 < tol) :
    ∀ om ∈ match_peaks found cat tol, ∀ m, om = some m →
      0 ≤ m.delta ∧ m.delta ≤ tol ∧ 0 ≤ m.match_quality ∧ m.match_quality ≤ 1 ∧
        (m.match_quality = 1 ↔ m.delta = 0) := by
  intro om hom m hm
  subst hm
  obtain ⟨ep, -, hep⟩ := List.mem_map.1 hom
  obtain ⟨c, -, hctol, hmeq, -⟩ := matchOne_some_spec cat tol ep m hep
  subst hmeq
  simp only
  have h0 : (0:ℚ) ≤ |c.twoTheta - ep.1| := abs_nonneg _
  have hdiv0 : (0:ℚ) ≤ |c.twoTheta - ep.1| / tol := div_nonneg h0 (le_of_lt htol)
  have hdiv1 : |c.twoTheta - ep.1| / tol ≤ 1 := (div_le_one htol).2 hctol
  refine ⟨h0, hctol, by linarith, by linarith, ?_⟩
  constructor
  · intro h1
    have : |c.twoTheta - ep.1| / tol = 0 := by linarith
    rcases div_eq_zero_iff.1 this with h2 | h2
    · exact h2
    · exact absurd h2 (ne_of_gt htol)
  · intro h1
    rw [h1, zero_div, sub_zero]

/-- C5 witness: a concrete match with delta 0.1 under tolerance 0.5. -/
theorem match_quality_bounds_witness :
    0 < ((1:ℚ)/2) ∧
      (0 ≤ (⟨30, 100, "A", "s", 1/10, 4/5, 500⟩ : MatchRec).delta ∧
        (⟨30, 100, "A", "s", 1/10, 4/5, 500⟩ : MatchRec).delta ≤ 1/2 ∧
        0 ≤ (⟨30, 100, "A", "s", 1/10, 4/5, 500⟩ : MatchRec).match_quality ∧
        (⟨30, 100, "A", "s", 1/10, 4/5, 500⟩ : MatchRec).match_quality ≤ 1 ∧
        ((⟨30, 100, "A", "s", 1/10, 4/5, 500⟩ : MatchRec).match_quality = 1 ↔
          (⟨30, 100, "A", "s", 1/10, 4/5, 500⟩ : MatchRec).delta = 0)) :=
  ⟨by norm_num,
    match_quality_bounds [((301 : ℚ)/10, (500 : ℚ))] [⟨30, 100, "A", "s"⟩] (1/2)
      (by norm_num) (some ⟨30, 100, "A", "s", 1/10, 4/5, 500⟩)
      ((show match_peaks [((301 : ℚ)/10, (500 : ℚ))] [⟨30, 100, "A", "s"⟩] (1/2)
          = [some ⟨30, 100, "A", "s", 1/10, 4/5, 500⟩] by
        with_unfolding_all rfl) ▸ List.mem_singleton_self _)
      ⟨30, 100, "A", "s", 1/10, 4/5, 500⟩ rfl⟩

/-- C5 counterexample: a detected peak exactly at the reference angle
yields a match with delta 0 and quality exactly 1, which is outside the
half-open interval [0,1) required by the claim. -/
theorem match_quality_one_at_exact :
    match_peaks [((30 : ℚ), (500 : ℚ))] [⟨30, 100, "A", "s"⟩] (1/2)
        = [some ⟨30, 100, "A", "s", 0, 1, 500⟩] ∧
      ¬ ((⟨30, 100, "A", "s", 0, 1, 500⟩ : MatchRec).match_quality < 1) := by
  constructor
  · with_unfolding_all rfl
  · simp only
    exact lt_irrefl 1

/-! ### Lemmas about the adaptive peak detector -/

theorem listMax_replicate_zero (n : ℕ) :
    listMax (List.replicate n (0:ℝ)) = 0 := by
  induction n with
  | zero => rfl
  | succ m ih =>
    cases m with
    | zero => rfl
    | succ k =>
      rw [List.replicate_succ, List.replicate_succ]
      show max 0 (listMax ((0:ℝ) :: List.replicate k 0)) = 0
      rw [← List.replicate_succ, ih, max_self]

theorem listMean_replicate_zero (n : ℕ) :
    listMean (List.replicate n (0:ℝ)) = 0 := by
  unfold listMean
  rw [List.sum_replicate]
  simp

theorem listStd_replicate_zero (n : ℕ) :
    listStd (List.replicate n (0:ℝ)) = 0 := by
  unfold listStd
  rw [List.map_replicate, listMean_replicate_zero]
  have h1 : ((0:ℝ) - 0)^2 = 0 := by norm_num
  rw [h1, listMean_replicate_zero, Real.sqrt_zero]

/-- C6 (amended): whenever the maximum intensity is strictly positive,
the effective height is min(nominalHeight, max(mean + 2 std, 0.05 max))
and the effective prominence is min(nominalProminence, max(std,
0.02 max)); the effective thresholds never exceed the nominal values in
any case (on a signal with nonpositive maximum the nominal values are
used unchanged, so the claimed formula does not describe that case). -/
theorem adaptive_thresholds (cfg : PeakParams) (l : List ℝ) :
    (0 < listMax l →
      (detect_peaks_params cfg l).height
          = min cfg.height (max (listMean l + 2 * listStd l) (listMax l * (5/100))) ∧
        (detect_peaks_params cfg l).prominence
          = min cfg.prominence (max (listStd l) (listMax l * (2/100)))) ∧
      (detect_peaks_params cfg l).height ≤ cfg.height ∧
      (detect_peaks_params cfg l).prominence ≤ cfg.prominence := by
  simp only [detect_peaks_params]
  split_ifs with h
  · exact ⟨fun _ => ⟨rfl, rfl⟩, min_le_left _ _, min_le_left _ _⟩
  · exact ⟨fun hc => absurd hc h, le_refl _, le_refl _⟩

/-- C6 witness: the signal [0, 2] has maximum 2 > 0, so the adaptive
formulas apply. -/
theorem adaptive_thresholds_witness :
    0 < listMax [(0:ℝ), 2] ∧
      ((detect_peaks_params ⟨100, 15, 50, 2⟩ [(0:ℝ), 2]).height
          = min (100:ℝ) (max (listMean [(0:ℝ), 2] + 2 * listStd [(0:ℝ), 2])
              (listMax [(0:ℝ), 2] * (5/100))) ∧
        (detect_peaks_params ⟨100, 15, 50, 2⟩ [(0:ℝ), 2]).prominence
          = min (50:ℝ) (max (listStd [(0:ℝ), 2]) (listMax [(0:ℝ), 2] * (2/100)))) := by
  have hM : 0 < listMax [(0:ℝ), 2] := by
    show (0:ℝ) < max 0 2
    rw [max_eq_right (by norm_num : (0:ℝ) ≤ 2)]
    norm_num
  exact ⟨hM, (adaptive_thresholds ⟨100, 15, 50, 2⟩ [(0:ℝ), 2]).1 hM⟩

/-- C6 counterexample: on an all-zero 100-point signal the detector
keeps the nominal height 100, while the claimed formula evaluates to 0;
so the formula does not hold for every Sample. -/
theorem adaptive_formula_fails_on_zero_signal :
    (detect_peaks_params ⟨100, 15, 50, 2⟩ (List.replicate 100 (0:ℝ))).height = 100 ∧
      min ((⟨100, 15, 50, 2⟩ : PeakParams).height)
          (max (listMean (List.replicate 100 (0:ℝ))
              + 2 * listStd (List.replicate 100 (0:ℝ)))
            (listMax (List.replicate 100 (0:ℝ)) * (5/100))) = 0 ∧
      (100:ℝ) ≠ 0 := by
  refine ⟨?_, ?_, by norm_num⟩
  · simp only [detect_peaks_params]
    rw [if_neg]
    rw [listMax_replicate_zero]
    norm_num
  · rw [listMean_replicate_zero, listStd_replicate_zero, listMax_replicate_zero]
    norm_num

/-- C10: when the maximum of the intensity signal is not strictly
positive, the detector performs no adaptive adjustment at all and keeps
the nominal parameters unchanged. -/
theorem detect_nominal_on_nonpositive_max (cfg : PeakParams) (l : List ℝ)
    (h : listMax l ≤ 0) : detect_peaks_params cfg l = cfg := by
  simp only [detect_peaks_params]
  rw [if_neg (not_lt.mpr h)]

/-- C10 witness: the all-zero signal keeps the nominal parameters. -/
theorem detect_nominal_on_nonpositive_max_witness :
    listMax (List.replicate 100 (0:ℝ)) ≤ 0 ∧
      detect_peaks_params ⟨100, 15, 50, 2⟩ (List.replicate 100 (0:ℝ))
        = ⟨100, 15, 50, 2⟩ :=
  ⟨le_of_eq (listMax_replicate_zero 100),
    detect_nominal_on_nonpositive_max ⟨100, 15, 50, 2⟩ _
      (le_of_eq (listMax_replicate_zero 100))⟩

/-! ### Lemmas about the phase-first matcher scan -/

theorem scanStep_cases (t ref : ℚ) (used : List ℕ) (acc : Option PFMatch × ℚ)
    (p : DetPeak) :
    scanStep t ref used acc p = acc ∨
      (p.idx ∉ used ∧ |p.angle - ref| ≤ t ∧ acc.2 < p.intensity ∧
        scanStep t ref used acc p
          = (some ⟨p.angle, ref, p.intensity, |p.angle - ref|, p.idx⟩, p.intensity)) := by
  unfold scanStep
  split_ifs with h1 h2
  · exact Or.inl rfl
  · exact Or.inr ⟨h1, h2.1, h2.2, rfl⟩
  · exact Or.inl rfl

theorem scanStep_ge (t ref : ℚ) (used : List ℕ) (acc : Option PFMatch × ℚ)
    (p : DetPeak) (hpu : p.idx ∉ used) (hpt : |p.angle - ref| ≤ t) :
    p.intensity ≤ (scanStep t ref used acc p).2 := by
  unfold scanStep
  rw [if_neg hpu]
  split_ifs with h2
  · exact le_refl _
  · push_neg at h2
    exact h2 hpt

theorem scan_foldl_mono (t ref : ℚ) (used : List ℕ) (l : List DetPeak) :
    ∀ acc : Option PFMatch × ℚ, acc.2 ≤ (l.foldl (scanStep t ref used) acc).2 := by
  induction l with
  | nil => intro acc; simp
  | cons q l ih =>
    intro acc
    rw [List.foldl_cons]
    refine le_trans ?_ (ih (scanStep t ref used acc q))
    rcases scanStep_cases t ref used acc q with h | ⟨-, -, hlt, h⟩
    · rw [h]
    · rw [h]; exact le_of_lt hlt

theorem scan_foldl_dominates (t ref : ℚ) (used : List ℕ) (l : List DetPeak) :
    ∀ (acc : Option PFMatch × ℚ) (p : DetPeak), p ∈ l → p.idx ∉ used →
      |p.angle - ref| ≤ t → p.intensity ≤ (l.foldl (scanStep t ref used) acc).2 := by
  induction l with
  | nil =>
    intro acc p hp
    exact absurd hp (by simp)
  | cons q l ih =>
    intro acc p hp hpu hpt
    rw [List.foldl_cons]
    rcases List.mem_cons.1 hp with rfl | hp2
    · exact le_trans (scanStep_ge t ref used acc p hpu hpt)
        (scan_foldl_mono t ref used l _)
    · exact ih _ p hp2 hpu hpt

theorem scan_foldl_form (t ref : ℚ) (used : List ℕ) (l : List DetPeak) :
    ∀ acc : Option PFMatch × ℚ, 0 ≤ acc.2 →
      l.foldl (scanStep t ref used) acc = acc ∨
      ∃ p ∈ l, p.idx ∉ used ∧ |p.angle - ref| ≤ t ∧ 0 < p.intensity ∧
        l.foldl (scanStep t ref used) acc
          = (some ⟨p.angle, ref, p.intensity, |p.angle - ref|, p.idx⟩, p.intensity) := by
  induction l with
  | nil => intro acc _; exact Or.inl rfl
  | cons q l ih =>
    intro acc hacc
    rw [List.foldl_cons]
    rcases scanStep_cases t ref used acc q with h | ⟨hqu, hqt, hqlt, h⟩
    · rw [h]
      rcases ih acc hacc with h2 | ⟨p, hp, h3⟩
      · exact Or.inl h2
      · exact Or.inr ⟨p, List.mem_cons_of_mem q hp, h3⟩
    · rw [h]
      have hq0 : 0 < q.intensity := lt_of_le_of_lt hacc hqlt
      rcases ih (some ⟨q.angle, ref, q.intensity, |q.angle - ref|, q.idx⟩, q.intensity)
          (le_of_lt hq0) with h2 | ⟨p, hp, h3⟩
      · rw [h2]
        exact Or.inr ⟨q, List.mem_cons_self q l, hqu, hqt, hq0, rfl⟩
      · exact Or.inr ⟨p, List.mem_cons_of_mem q hp, h3⟩

theorem scanPeaks_some_spec (t ref : ℚ) (used : List ℕ) (peaks : List DetPeak)
    (m : PFMatch) (h : scanPeaks t ref used peaks = some m) :
    ∃ p ∈ peaks, p.idx ∉ used ∧ |p.angle - ref| ≤ t ∧ 0 < p.intensity ∧
      m = ⟨p.angle, ref, p.intensity, |p.angle - ref|, p.idx⟩ ∧
      ∀ q ∈ peaks, q.idx ∉ used → |q.angle - ref| ≤ t →
        q.intensity ≤ p.intensity := by
  unfold scanPeaks at h
  rcases scan_foldl_form t ref used peaks (none, 0) (le_refl 0) with h2 | ⟨p, hp, hpu, hpt, hp0, h2⟩
  · rw [h2] at h
    exact absurd h (by simp)
  · rw [h2] at h
    have hm : m = ⟨p.angle, ref, p.intensity, |p.angle - ref|, p.idx⟩ :=
      (Option.some_inj.1 h).symm
    refine ⟨p, hp, hpu, hpt, hp0, hm, ?_⟩
    intro q hq hqu hqt
    have := scan_foldl_dominates t ref used peaks (none, 0) q hq hqu hqt
    rw [h2] at this
    exact this

theorem scanPeaks_total (t ref : ℚ) (used : List ℕ) (peaks : List DetPeak)
    (h : ∃ p ∈ peaks, p.idx ∉ used ∧ |p.angle - ref| ≤ t ∧ 0 < p.intensity) :
    ∃ m, scanPeaks t ref used peaks = some m := by
  obtain ⟨p, hp, hpu, hpt, hp0⟩ := h
  have hdom := scan_foldl_dominates t ref used peaks (none, 0) p hp hpu hpt
  rcases scan_foldl_form t ref used peaks (none, 0) (le_refl 0) with h2 | ⟨q, -, -, -, -, h2⟩
  · rw [h2] at hdom
    exact absurd hdom (by simpa using hp0)
  · exact ⟨_, by unfold scanPeaks; rw [h2]⟩

/-- C1 (amended): for a reference angle, among the not-yet-used detected
peaks within tolerance that have strictly positive intensity, one of
highest intensity is selected, recorded with its angular difference, and
its index marked used; peaks of intensity 0 or less can never be
selected, because the best-intensity accumulator starts at 0 and is only
beaten strictly. -/
theorem phase_first_selects_max (tolerance : ℚ) (peaks : List DetPeak)
    (prev : List PFMatch) (used : List ℕ) (ref : ℚ)
    (h : ∃ p ∈ peaks, p.idx ∉ used ∧ |p.angle - ref| ≤ tolerance ∧ 0 < p.intensity) :
    ∃ p ∈ peaks, p.idx ∉ used ∧ |p.angle - ref| ≤ tolerance ∧ 0 < p.intensity ∧
      refStep tolerance peaks (prev, used) ref
        = (prev ++ [⟨p.angle, ref, p.intensity, |p.angle - ref|, p.idx⟩],
            used ++ [p.idx]) ∧
      ∀ q ∈ peaks, q.idx ∉ used → |q.angle - ref| ≤ tolerance →
        q.intensity ≤ p.intensity := by
  obtain ⟨m, hm⟩ := scanPeaks_total tolerance ref used peaks h
  obtain ⟨p, hp, hpu, hpt, hp0, hmeq, hmax⟩ :=
    scanPeaks_some_spec tolerance ref used peaks m hm
  refine ⟨p, hp, hpu, hpt, hp0, ?_, hmax⟩
  unfold refStep
  rw [hm, hmeq]

/-- C1 witness: the scenario of the claim, with the 300- and
900-intensity peaks at 30.00 and 30.05, one reference at 30.02 and
tolerance 0.5: the 900-intensity peak (index 1 after the
intensity-descending sort) is selected, both through the selection
theorem and through the full matcher. -/
theorem phase_first_selects_max_witness :
    (∃ p ∈ List.insertionSort peakGe (mkPeakInfo [(30 : ℚ), 30 + 5/100] [300, 900]),
      p.idx ∉ ([] : List ℕ) ∧ |p.angle - (30 + 2/100)| ≤ 1/2 ∧ 0 < p.intensity) ∧
    (∃ p ∈ List.insertionSort peakGe (mkPeakInfo [(30 : ℚ), 30 + 5/100] [300, 900]),
      p.idx ∉ ([] : List ℕ) ∧ |p.angle - (30 + 2/100)| ≤ 1/2 ∧ 0 < p.intensity ∧
      refStep (1/2) (List.insertionSort peakGe (mkPeakInfo [(30 : ℚ), 30 + 5/100] [300, 900]))
          ([], []) (30 + 2/100)
        = ([⟨p.angle, 30 + 2/100, p.intensity, |p.angle - (30 + 2/100)|, p.idx⟩],
            [p.idx]) ∧
      ∀ q ∈ List.insertionSort peakGe (mkPeakInfo [(30 : ℚ), 30 + 5/100] [300, 900]),
        q.idx ∉ ([] : List ℕ) → |q.angle - (30 + 2/100)| ≤ 1/2 →
          q.intensity ≤ p.intensity) ∧
    match_peaks_to_references [(30 : ℚ), 30 + 5/100] [300, 900]
        [⟨"A", [30 + 2/100], "s"⟩] (1/2)
      = [⟨"A", "s", [⟨30 + 5/100, 30 + 2/100, 900, 3/100, 1⟩], 1⟩] :=
  ⟨by with_unfolding_all decide,
    phase_first_selects_max (1/2) _ [] [] (30 + 2/100) (by with_unfolding_all decide),
    by with_unfolding_all rfl⟩

/-- C1 counterexample: a single detected peak of intensity 0 lying
exactly at the only reference angle is within tolerance and unused, yet
the matcher records no match for it, contradicting the claim that the
highest-intensity in-tolerance unused peak is always selected. -/
theorem phase_first_zero_intensity_unmatched :
    match_peaks_to_references [(30 : ℚ)] [(0 : ℚ)] [⟨"A", [30], "s"⟩] (1/2)
      = [] := by
  with_unfolding_all rfl

/-! ### Exclusivity and tolerance bounds of the full phase-first matcher -/

theorem allIdxs_append_single (l : List PhaseMatches) (pm : PhaseMatches) :
    allIdxs (l ++ [pm]) = allIdxs l ++ pm.matchList.map PFMatch.peak_idx := by
  simp [allIdxs]

theorem refStep_inv (tol : ℚ) (peaks : List DetPeak) (st : List PFMatch × List ℕ)
    (ref : ℚ) (hmem : ∀ m ∈ st.1, m.peak_idx ∈ st.2) :
    (∀ m ∈ (refStep tol peaks st ref).1,
      m.peak_idx ∈ (refStep tol peaks st ref).2) ∧
    (∀ i ∈ st.2, i ∈ (refStep tol peaks st ref).2) ∧
    (∀ m ∈ (refStep tol peaks st ref).1, m ∈ st.1 ∨ m.peak_idx ∉ st.2) ∧
    ((st.1.map PFMatch.peak_idx).Nodup →
      ((refStep tol peaks st ref).1.map PFMatch.peak_idx).Nodup) := by
  unfold refStep
  cases h : scanPeaks tol ref st.2 peaks with
  | none => exact ⟨hmem, fun i hi => hi, fun m hm => Or.inl hm, fun hn => hn⟩
  | some m =>
    obtain ⟨p, -, hpu, -, -, hmeq, -⟩ := scanPeaks_some_spec tol ref st.2 peaks m h
    have hmu : m.peak_idx ∉ st.2 := by rw [hmeq]; exact hpu
    refine ⟨?_, ?_, ?_, ?_⟩
    · intro m2 hm2
      rcases List.mem_append.1 hm2 with h2 | h2
      · exact List.mem_append_left _ (hmem m2 h2)
      · rcases List.mem_singleton.1 h2 with rfl
        exact List.mem_append_right _ (List.mem_singleton_self _)
    · intro i hi
      exact List.mem_append_left _ hi
    · intro m2 hm2
      rcases List.mem_append.1 hm2 with h2 | h2
      · exact Or.inl h2
      · rcases List.mem_singleton.1 h2 with rfl
        exact Or.inr hmu
    · intro hn
      rw [List.map_append]
      rw [List.nodup_append]
      refine ⟨hn, by simp, ?_⟩
      intro a ha ha2
      rcases List.mem_singleton.1 (by simpa using ha2) with rfl
      obtain ⟨m3, hm3, hm3eq⟩ := List.mem_map.1 ha
      exact hmu (hm3eq ▸ hmem m3 hm3)

theorem matchPhase_foldl_inv (tol : ℚ) (peaks : List DetPeak) (refs : List ℚ) :
    ∀ st : List PFMatch × List ℕ,
      (∀ m ∈ st.1, m.peak_idx ∈ st.2) →
      (st.1.map PFMatch.peak_idx).Nodup →
      (∀ m ∈ (refs.foldl (refStep tol peaks) st).1,
        m.peak_idx ∈ (refs.foldl (refStep tol peaks) st).2) ∧
      ((refs.foldl (refStep tol peaks) st).1.map PFMatch.peak_idx).Nodup ∧
      (∀ i ∈ st.2, i ∈ (refs.foldl (refStep tol peaks) st).2) ∧
      (∀ m ∈ (refs.foldl (refStep tol peaks) st).1,
        m ∈ st.1 ∨ m.peak_idx ∉ st.2) := by
  induction refs with
  | nil =>
    intro st hmem hnd
    exact ⟨hmem, hnd, fun i hi => hi, fun m hm => Or.inl hm⟩
  | cons ref refs ih =>
    intro st hmem hnd
    rw [List.foldl_cons]
    obtain ⟨ha, hc, hd, hb⟩ := refStep_inv tol peaks st ref hmem
    obtain ⟨A, B, C, D⟩ := ih (refStep tol peaks st ref) ha (hb hnd)
    refine ⟨A, B, fun i hi => C i (hc i hi), ?_⟩
    intro m hm
    rcases D m hm with h2 | h2
    · exact hd m h2
    · exact Or.inr (fun hcon => h2 (hc _ hcon))

theorem refStep_diff (tol : ℚ) (peaks : List DetPeak) (st : List PFMatch × List ℕ)
    (ref : ℚ) (hdiff : ∀ m ∈ st.1, 0 ≤ m.diff ∧ m.diff ≤ tol) :
    ∀ m ∈ (refStep tol peaks st ref).1, 0 ≤ m.diff ∧ m.diff ≤ tol := by
  unfold refStep
  cases h : scanPeaks tol ref st.2 peaks with
  | none => exact hdiff
  | some m =>
    obtain ⟨p, -, -, hpt, -, hmeq, -⟩ := scanPeaks_some_spec tol ref st.2 peaks m h
    intro m2 hm2
    rcases List.mem_append.1 hm2 with h2 | h2
    · exact hdiff m2 h2
    · rcases List.mem_singleton.1 h2 with rfl
      rw [hmeq]
      exact ⟨abs_nonneg _, hpt⟩

theorem matchPhase_foldl_diff (tol : ℚ) (peaks : List DetPeak) (refs : List ℚ) :
    ∀ st : List PFMatch × List ℕ,
      (∀ m ∈ st.1, 0 ≤ m.diff ∧ m.diff ≤ tol) →
      ∀ m ∈ (refs.foldl (refStep tol peaks) st).1, 0 ≤ m.diff ∧ m.diff ≤ tol := by
  induction refs with
  | nil => intro st hdiff; exact hdiff
  | cons ref refs ih =>
    intro st hdiff
    rw [List.foldl_cons]
    exact ih _ (refStep_diff tol peaks st ref hdiff)

theorem phaseStep_shape (tol : ℚ) (peaks : List DetPeak)
    (st : List PhaseMatches × List ℕ) (ph : RefPhase) :
    (phaseStep tol peaks st ph
        = (st.1, (matchPhase tol peaks st.2 ph.twoTheta).2) ∧
      (matchPhase tol peaks st.2 ph.twoTheta).1 = []) ∨
    phaseStep tol peaks st ph
      = (st.1 ++ [⟨ph.name, ph.symbol, (matchPhase tol peaks st.2 ph.twoTheta).1,
          (matchPhase tol peaks st.2 ph.twoTheta).1.length⟩],
        (matchPhase tol peaks st.2 ph.twoTheta).2) := by
  simp only [phaseStep]
  split_ifs with h
  · exact Or.inl ⟨rfl, h⟩
  · exact Or.inr rfl

theorem mptr_foldl_inv (tol : ℚ) (peaks : List DetPeak) (phases : List RefPhase) :
    ∀ st : List PhaseMatches × List ℕ,
      (allIdxs st.1).Nodup → (∀ i ∈ allIdxs st.1, i ∈ st.2) →
      (allIdxs (phases.foldl (phaseStep tol peaks) st).1).Nodup ∧
      (∀ i ∈ allIdxs (phases.foldl (phaseStep tol peaks) st).1,
        i ∈ (phases.foldl (phaseStep tol peaks) st).2) := by
  induction phases with
  | nil => intro st hnd hmem; exact ⟨hnd, hmem⟩
  | cons ph phases ih =>
    intro st hnd hmem
    rw [List.foldl_cons]
    have hinner := matchPhase_foldl_inv tol peaks ph.twoTheta ([], st.2)
      (by intro m hm; exact absurd hm (by simp)) (by simp)
    obtain ⟨ra, rb, rc, rd⟩ := hinner
    have rd2 : ∀ m ∈ (matchPhase tol peaks st.2 ph.twoTheta).1, m.peak_idx ∉ st.2 := by
      intro m hm
      rcases rd m hm with h2 | h2
      · exact absurd h2 (by simp)
      · exact h2
    rcases phaseStep_shape tol peaks st ph with ⟨heq, -⟩ | heq
    · rw [heq]
      refine ih _ hnd ?_
      intro i hi
      exact rc i (hmem i hi)
    · rw [heq]
      refine ih _ ?_ ?_
      · rw [allIdxs_append_single, List.nodup_append]
        refine ⟨hnd, rb, ?_⟩
        intro a ha ha2
        obtain ⟨m3, hm3, hm3eq⟩ := List.mem_map.1 ha2
        exact rd2 m3 hm3 (hm3eq ▸ hmem a ha)
      · intro i hi
        rw [allIdxs_append_single] at hi
        rcases List.mem_append.1 hi with h2 | h2
        · exact rc i (hmem i h2)
        · obtain ⟨m3, hm3, hm3eq⟩ := List.mem_map.1 h2
          exact hm3eq ▸ ra m3 hm3

theorem mptr_foldl_diff (tol : ℚ) (peaks : List DetPeak) (phases : List RefPhase) :
    ∀ st : List PhaseMatches × List ℕ,
      (∀ ph ∈ st.1, ∀ m ∈ ph.matchList, 0 ≤ m.diff ∧ m.diff ≤ tol) →
      ∀ ph ∈ (phases.foldl (phaseStep tol peaks) st).1,
        ∀ m ∈ ph.matchList, 0 ≤ m.diff ∧ m.diff ≤ tol := by
  induction phases with
  | nil => intro st hdiff; exact hdiff
  | cons ph phases ih =>
    intro st hdiff
    rw [List.foldl_cons]
    refine ih _ ?_
    have hin := matchPhase_foldl_diff tol peaks ph.twoTheta ([], st.2)
      (by intro m hm; exact absurd hm (by simp))
    rcases phaseStep_shape tol peaks st ph with ⟨heq, -⟩ | heq
    · rw [heq]; exact hdiff
    · rw [heq]
      intro ph2 hph2
      rcases List.mem_append.1 hph2 with h2 | h2
      · exact hdiff ph2 h2
      · rcases List.mem_singleton.1 h2 with rfl
        exact hin

/-- Every match of the phase-first matcher has an angular difference
between 0 and the tolerance. -/
theorem pf_diff_bounds (peak_angles peak_intensities : List ℚ)
    (reference_data : List RefPhase) (tolerance : ℚ) :
    ∀ ph ∈ match_peaks_to_references peak_angles peak_intensities
        reference_data tolerance,
      ∀ m ∈ ph.matchList, 0 ≤ m.diff ∧ m.diff ≤ tolerance := by
  unfold match_peaks_to_references
  exact mptr_foldl_diff tolerance _ reference_data ([], [])
    (by intro ph hph; exact absurd hph (by simp))

/-- C3: under the phase-first policy, the peak indices of all matches
across all phases of a single run are pairwise distinct: a detected peak
appears in at most one match. -/
theorem phase_first_exclusivity (peak_angles peak_intensities : List ℚ)
    (reference_data : List RefPhase) (tolerance : ℚ) :
    (allIdxs (match_peaks_to_references peak_angles peak_intensities
        reference_data tolerance)).Nodup := by
  unfold match_peaks_to_references
  exact (mptr_foldl_inv tolerance _ reference_data ([], [])
    (by simp [allIdxs]) (by simp [allIdxs])).1

/-- C2 (amended): neither matching policy validates the tolerance: a
zero or negative tolerance is accepted and the angular comparisons
proceed; all that follows from tolerance ≤ 0 is that only exact angular
coincidences (delta = 0) can be matched.  No InvalidToleranceError
exists anywhere in the source. -/
theorem nonpositive_tolerance_no_rejection (found : List Row)
    (cat : List CatEntry) (peak_angles peak_intensities : List ℚ)
    (reference_data : List RefPhase) (tolerance : ℚ) (h : tolerance ≤ 0) :
    (∀ om ∈ match_peaks found cat tolerance, ∀ m, om = some m → m.delta = 0) ∧
    (∀ ph ∈ match_peaks_to_references peak_angles peak_intensities
        reference_data tolerance, ∀ m ∈ ph.matchList, m.diff = 0) := by
  constructor
  · intro om hom m hm
    subst hm
    obtain ⟨ep, -, hep⟩ := List.mem_map.1 hom
    obtain ⟨c, -, hctol, hmeq, -⟩ := matchOne_some_spec cat tolerance ep m hep
    subst hmeq
    exact le_antisymm (hctol.trans h) (abs_nonneg _)
  · intro ph hph m hm
    obtain ⟨h0, h1⟩ := pf_diff_bounds peak_angles peak_intensities
      reference_data tolerance ph hph m hm
    exact le_antisymm (h1.trans h) h0

/-- C2 witness: at tolerance exactly 0 both matchers run and return only
exact coincidences. -/
theorem nonpositive_tolerance_no_rejection_witness :
    ((0:ℚ) ≤ 0) ∧
      ((∀ om ∈ match_peaks [((30:ℚ), (500:ℚ))] [⟨31, 100, "A", "s"⟩] 0,
          ∀ m, om = some m → m.delta = 0) ∧
        (∀ ph ∈ match_peaks_to_references [(30:ℚ)] [(500:ℚ)]
            [⟨"A", [30], "s"⟩] 0, ∀ m ∈ ph.matchList, m.diff = 0)) :=
  ⟨le_refl 0,
    nonpositive_tolerance_no_rejection [((30:ℚ), (500:ℚ))] [⟨31, 100, "A", "s"⟩]
      [(30:ℚ)] [(500:ℚ)] [⟨"A", [30], "s"⟩] 0 (le_refl 0)⟩

/-- C2 counterexample: with tolerance 0 no error of any kind is raised:
the peak-first matcher runs its comparisons and records the peak as
unmatched, and the phase-first matcher even produces a match for an
exact angular coincidence, so the comparisons are certainly attempted
and no InvalidToleranceError precedes them. -/
theorem tolerance_zero_not_rejected :
    match_peaks [((30:ℚ), (500:ℚ))] [⟨31, 100, "A", "s"⟩] 0 = [none] ∧
      match_peaks_to_references [(30:ℚ)] [(500:ℚ)] [⟨"A", [30], "s"⟩] 0
        = [⟨"A", "s", [⟨30, 30, 500, 0, 0⟩], 1⟩] := by
  constructor
  · with_unfolding_all rfl
  · with_unfolding_all rfl

end XRD
